import Mathlib

/-!
Shallow embedding of the Duktape minimal ES2015 Promise polyfill
(src/polyfills/promise.js) and proofs about its behaviour.

The polyfill is single-threaded JavaScript manipulating a global FIFO job
queue, promise objects (fields `state`, `value`, `fulfillReactions`,
`rejectReactions`), resolution function pairs sharing an `alreadyResolved`
latch, and closure state for `Promise.all`.  The embedding makes all of that
state explicit in a record `St`; promises, resolution pairs and
`Promise.all` closure records are stored in lists and referred to by index
(object identity in JavaScript becomes index identity here).

User-supplied callables (executors, reaction handlers, thenable objects)
are deep-embedded as small inductive types whose interpretation performs
exactly the calls the corresponding JavaScript closures would perform on
the core.  A `log` field records invocations of logging handlers; it is an
observation device for ordering properties and is touched by no core
operation.
-/

namespace PromisePolyfill

/-- Settlement state of a promise.  In the source the `state` field is
`undefined` (pending), `true` (fulfilled) or `false` (rejected). -/
inductive PromiseState where
  | pending
  | fulfilled
  | rejected
  deriving DecidableEq, Repr

/-- Values manipulated by the polyfill.  `promiseV pid` is a reference to
promise number `pid`.  `thenObj inner` models a plain object whose `then`
member is the callable `function (res, rej) { res(inner); }`; `thenRejObj`
the same with `rej(inner)`; `badThen tag` models an object whose `then`
property access throws `errV tag` (a throwing getter).  `arr` is a plain
array, `plainObj` a plain object with no `then` member. -/
inductive Value where
  | undef
  | num (n : Int)
  | str (s : String)
  | typeError (msg : String)
  | errV (tag : Nat)
  | arr (vs : List Value)
  | promiseV (pid : Nat)
  | thenObj (inner : Value)
  | thenRejObj (inner : Value)
  | badThen (tag : Nat)
  | plainObj
  deriving Repr

/-- Reaction handlers.  `identity` and `thrower` are the string sentinels
`'Identity'` and `'Thrower'` of the source; the remaining constructors
deep-embed the user functions appearing in this development: a constant
function, a logging function (records its tag, returns its argument), a
throwing function, the resolve/reject members of a resolution pair used
directly as handlers (as `Promise.race` and `Promise.all` do), and the
per-index `promiseAllElement` closure of `Promise.all`. -/
inductive Handler where
  | identity
  | thrower
  | hConst (v : Value)
  | hLog (tag : Nat)
  | hThrow (v : Value)
  | hPairResolve (prId : Nat)
  | hPairReject (prId : Nat)
  | hAllElement (aid : Nat) (idx : Nat)
  deriving Repr

/-- A reaction record `{handler, resolve, reject}`: the resolve/reject
members always come from one resolution pair, stored here by index. -/
structure Reaction where
  handler : Handler
  prId : Nat
  deriving Repr

/-- Job queue element: a reaction job `{handler, resolve, reject, value}`
or a thenable assimilation job `{thenable, then, resolve, reject}`.  The
`then` member of an assimilation job is determined by the thenable value
itself in this embedding. -/
inductive Job where
  | reaction (handler : Handler) (prId : Nat) (value : Value)
  | assimilation (thenable : Value) (prId : Nat)
  deriving Repr

/-- A promise object: `state`, `value` and the two reaction lists.  In the
source the reaction list properties are deleted upon settlement; here they
are set to `[]`, which is observationally the same for the core. -/
structure PromiseRec where
  state : PromiseState
  value : Value
  fulfillReactions : List Reaction
  rejectReactions : List Reaction
  deriving Repr

/-- A resolution pair created by `createResolutionFunctions(p)`: the shared
`alreadyResolved` latch and the promise the pair settles. -/
structure PairRec where
  alreadyResolved : Bool
  target : Nat
  deriving Repr

/-- Closure state of one `Promise.all` call: the resolution pair of the
aggregate promise (`resolveFn`/`rejectFn`), the `values` array (one slot
per input, `none` while unset; JavaScript array holes read as undefined),
the per-index `alreadyCalled` latches of the `promiseAllElement` closures,
and the `remaining` counter. -/
structure AllRec where
  prId : Nat
  slots : List (Option Value)
  called : List Bool
  remaining : Int
  deriving Repr

/-- Global state: all promise objects, all resolution pairs, all
`Promise.all` closure records, the job queue (head first) and the
observation log. -/
structure St where
  promises : List PromiseRec
  pairs : List PairRec
  allRecs : List AllRec
  queue : List Job
  log : List Nat

/-- The empty initial state: no objects allocated, empty queue. -/
def st0 : St := { promises := [], pairs := [], allRecs := [], queue := [], log := [] }

/-- State of a fresh promise as initialised by the constructor. -/
def freshPromise : PromiseRec :=
  { state := .pending, value := .undef, fulfillReactions := [], rejectReactions := [] }

/-- A promise record as left by `doFulfill`. -/
def fulfilledRec (val : Value) : PromiseRec :=
  { state := .fulfilled, value := val, fulfillReactions := [], rejectReactions := [] }

/-- A promise record as left by `doReject`. -/
def rejectedRec (val : Value) : PromiseRec :=
  { state := .rejected, value := val, fulfillReactions := [], rejectReactions := [] }

/-- A resolution pair whose latch has been tripped. -/
def deadPair (pid : Nat) : PairRec := { alreadyResolved := true, target := pid }

/-- A freshly created resolution pair. -/
def livePair (pid : Nat) : PairRec := { alreadyResolved := false, target := pid }

def setP (s : St) (pid : Nat) (r : PromiseRec) : St :=
  { s with promises := s.promises.set pid r }

def setPair (s : St) (prId : Nat) (r : PairRec) : St :=
  { s with pairs := s.pairs.set prId r }

def setAllRec (s : St) (aid : Nat) (r : AllRec) : St :=
  { s with allRecs := s.allRecs.set aid r }

/-- The `(state, value)` pair of promise `pid`, the observable settlement
status. -/
def statusOf (s : St) (pid : Nat) : Option (PromiseState × Value) :=
  (s.promises.get? pid).map (fun p => (p.state, p.value))

/-- Source `enqueueJob`: append at the tail of the linked list. -/
def enqueueJob (s : St) (job : Job) : St :=
  { s with queue := s.queue ++ [job] }

/-- Source `dequeueJob`: remove and return the head, or nothing when the
queue is empty. -/
def dequeueJob (s : St) : Option (Job × St) :=
  match s.queue with
  | [] => none
  | job :: rest => some (job, { s with queue := rest })

/-- The reaction job built by `doFulfill`/`doReject` from a captured
reaction: same handler and resolution pair, only the value is new. -/
def mkReactionJob (val : Value) (r : Reaction) : Job :=
  .reaction r.handler r.prId val

/-- Source `doFulfill(p, val)`: no-op unless pending; set state true and
the value, capture and clear the reaction lists, then enqueue one reaction
job per captured fulfill reaction, in list order. -/
def doFulfill (s : St) (pid : Nat) (val : Value) : St :=
  match s.promises.get? pid with
  | none => s
  | some p =>
    if p.state ≠ .pending then s
    else
      let reactions := p.fulfillReactions
      let s := setP s pid
        { state := .fulfilled, value := val, fulfillReactions := [], rejectReactions := [] }
      reactions.foldl (fun s r => enqueueJob s (mkReactionJob val r)) s

/-- Source `doReject(p, val)`: as `doFulfill` but with state false and the
reject reactions. -/
def doReject (s : St) (pid : Nat) (val : Value) : St :=
  match s.promises.get? pid with
  | none => s
  | some p =>
    if p.state ≠ .pending then s
    else
      let reactions := p.rejectReactions
      let s := setP s pid
        { state := .rejected, value := val, fulfillReactions := [], rejectReactions := [] }
      reactions.foldl (fun s r => enqueueJob s (mkReactionJob val r)) s

/-- Source `createResolutionFunctions(p)`: allocate a fresh pair with the
latch down, bound to promise `pid`; returns the new pair index. -/
def createResolutionFunctions (s : St) (pid : Nat) : St × Nat :=
  ({ s with pairs := s.pairs ++ [{ alreadyResolved := false, target := pid }] },
   s.pairs.length)

/-- The `reject` closure of a resolution pair: no-op when the latch is up;
otherwise trip the latch, and unless the promise is already settled,
`doReject` it with the error value as is (no thenable inspection). -/
def pairReject (s : St) (prId : Nat) (err : Value) : St :=
  match s.pairs.get? prId with
  | none => s
  | some pr =>
    if pr.alreadyResolved then s
    else
      let s := setPair s prId { pr with alreadyResolved := true }
      match s.promises.get? pr.target with
      | none => s
      | some p =>
        if p.state ≠ .pending then s
        else doReject s pr.target err

/-- Result of the thenable probe `val !== null && typeof val === 'object'
&& typeof val.then === 'function'` performed inside `resolve`: promises and
the two thenable object kinds have a callable `then`; `badThen` throws from
the property read; everything else is not thenable. -/
inductive ThenProbe where
  | notThenable
  | thenableFound
  | probeError (e : Value)
  deriving Repr

def probeThen : Value → ThenProbe
  | .promiseV _ => .thenableFound
  | .thenObj _ => .thenableFound
  | .thenRejObj _ => .thenableFound
  | .badThen tag => .probeError (.errV tag)
  | _ => .notThenable

/-- Reference equality `val === p` against promise `pid`. -/
def isSelfOf (val : Value) (pid : Nat) : Bool :=
  match val with
  | .promiseV q => q = pid
  | _ => false

/-- The `resolve` closure of a resolution pair: no-op when the latch is up;
trip the latch; no-op when the promise is already settled; reject with a
type error on self resolution; otherwise probe the candidate for a callable
`then`: on a probe error reject with it, on a thenable create a fresh
resolution pair and enqueue an assimilation job (the old pair is now
neutralized), otherwise fulfill with the candidate. -/
def pairResolve (s : St) (prId : Nat) (val : Value) : St :=
  match s.pairs.get? prId with
  | none => s
  | some pr =>
    if pr.alreadyResolved then s
    else
      let s := setPair s prId { pr with alreadyResolved := true }
      match s.promises.get? pr.target with
      | none => s
      | some p =>
        if p.state ≠ .pending then s
        else if isSelfOf val pr.target then
          doReject s pr.target (.typeError "self resolution")
        else
          match probeThen val with
          | .thenableFound =>
            let (s, newPr) := createResolutionFunctions s pr.target
            enqueueJob s (.assimilation val newPr)
          | .probeError e => doReject s pr.target e
          | .notThenable => doFulfill s pr.target val

/-- Allocation performed by `new Promise(executor)` before the executor
runs: a fresh pending promise and its resolution pair.  Returns the new
promise index and pair index. -/
def newCapability (s : St) : St × Nat × Nat :=
  let pid := s.promises.length
  let s := { s with promises := s.promises ++ [freshPromise] }
  let (s, prId) := createResolutionFunctions s pid
  (s, pid, prId)

/-- Source `%PromisePrototype%.then(onFulfilled, onRejected)` restricted to
a valid receiver.  Non-callable handlers have already been coerced to the
`identity`/`thrower` sentinels by the caller of this definition (the source
coerces them right before the state dispatch).  Creates the derived promise
and its pair; while the source promise is pending, appends a reaction to
both lists; when already settled, enqueues the matching reaction job
immediately.  Returns the derived promise index. -/
def thenCall (s : St) (src : Nat) (onFulfilled onRejected : Handler) : St × Nat :=
  let (s, dpid, prId) := newCapability s
  match s.promises.get? src with
  | none => (s, dpid)
  | some p =>
    match p.state with
    | .pending =>
      let p2 := { p with
        fulfillReactions := p.fulfillReactions ++ [{ handler := onFulfilled, prId := prId }],
        rejectReactions := p.rejectReactions ++ [{ handler := onRejected, prId := prId }] }
      (setP s src p2, dpid)
    | .fulfilled => (enqueueJob s (.reaction onFulfilled prId p.value), dpid)
    | .rejected => (enqueueJob s (.reaction onRejected prId p.value), dpid)

/-- The `values` array as passed to `resolveFn` by `Promise.all`: unset
slots read as undefined. -/
def renderSlots (slots : List (Option Value)) : Value :=
  .arr (slots.map (fun o => o.getD .undef))

/-- Run a reaction handler on a value: the new state plus either the
return value or a thrown error.  `identity` returns its argument,
`thrower` throws it; the deep-embedded user functions do what the
JavaScript closures they model do, including the `promiseAllElement`
closure of `Promise.all` with its `alreadyCalled` latch, slot write,
`remaining` decrement and zero-crossing resolve. -/
def runHandler (s : St) (h : Handler) (val : Value) : St × Except Value Value :=
  match h with
  | .identity => (s, .ok val)
  | .thrower => (s, .error val)
  | .hConst v => (s, .ok v)
  | .hLog tag => ({ s with log := s.log ++ [tag] }, .ok val)
  | .hThrow v => (s, .error v)
  | .hPairResolve prId => (pairResolve s prId val, .ok .undef)
  | .hPairReject prId => (pairReject s prId val, .ok .undef)
  | .hAllElement aid idx =>
    match s.allRecs.get? aid with
    | none => (s, .ok .undef)
    | some ar =>
      if ar.called.getD idx false then (s, .ok .undef)
      else
        let slots := ar.slots.set idx (some val)
        let called := ar.called.set idx true
        let remaining := ar.remaining - 1
        let s := setAllRec s aid
          { ar with slots := slots, called := called, remaining := remaining }
        if remaining = 0 then (pairResolve s ar.prId (renderSlots slots), .ok .undef)
        else (s, .ok .undef)

/-- Job dispatch of the source `runQueueEntry()` body.  An assimilation
job calls the `then` member of the thenable with the resolve/reject of the
stored pair (for a promise thenable that is `%PromisePrototype%.then`,
whose derived promise is discarded; for `thenObj`/`thenRejObj` the
embedded callable); a throw from `then` is caught and fed to the reject
function.  A reaction job runs the handler and feeds the outcome to the
resolve (return) or reject (throw) function of its pair. -/
def runJob (s : St) (job : Job) : St :=
  match job with
  | .assimilation th prId =>
    match th with
    | .thenObj inner => pairResolve s prId inner
    | .thenRejObj inner => pairReject s prId inner
    | .promiseV pid => (thenCall s pid (.hPairResolve prId) (.hPairReject prId)).1
    | _ => s
  | .reaction h prId val =>
    match runHandler s h val with
    | (s, .ok res) => pairResolve s prId res
    | (s, .error e) => pairReject s prId e

/-- Source `runQueueEntry()`: dequeue one job and run it; `none` models
the `false` return on an empty queue. -/
def runQueueEntry (s : St) : Option St :=
  match dequeueJob s with
  | none => none
  | some (job, s) => some (runJob s job)

/-- Source `Promise.runQueue`, the `while (runQueueEntry()) {}` drain loop,
made total with explicit fuel: `some s` is normal termination of the loop
(empty queue) in at most `fuel` iterations, `none` is fuel exhaustion. -/
def runQueue (fuel : Nat) (s : St) : Option St :=
  match runQueueEntry s with
  | none => some s
  | some s2 =>
    match fuel with
    | 0 => none
    | n + 1 => runQueue n s2

/-- Iterate `runQueueEntry` exactly `k` times (fails if the queue empties
first); measures queue round-trips for the assimilation cost property. -/
def stepN : Nat → St → Option St
  | 0, s => some s
  | k + 1, s => (runQueueEntry s).bind (stepN k)

/-- Deep-embedded executor bodies: the statements a `new Promise(executor)`
executor of this development performs, in order.  `actThrow` aborts the
rest of the body with a thrown value; `actSelfResolve` is
`resolve(thisPromise)`; `actNop` is a statement with no effect on the
core. -/
inductive ExAction where
  | actResolve (v : Value)
  | actReject (v : Value)
  | actThrow (v : Value)
  | actSelfResolve
  | actNop
  deriving Repr

/-- Run an executor body given the resolution pair `prId` of the new
promise `pid`: returns the state plus the thrown value, if any. -/
def runExecutor : St → Nat → Nat → List ExAction → St × Option Value
  | s, _, _, [] => (s, none)
  | s, prId, pid, a :: rest =>
    match a with
    | .actResolve v => runExecutor (pairResolve s prId v) prId pid rest
    | .actReject v => runExecutor (pairReject s prId v) prId pid rest
    | .actSelfResolve => runExecutor (pairResolve s prId (.promiseV pid)) prId pid rest
    | .actNop => runExecutor s prId pid rest
    | .actThrow v => (s, some v)

/-- Source `%Promise%` constructor on a callable executor: allocate the
promise and its resolution pair, run the executor with the pair, and catch
any throw by calling the pair reject function on the thrown value.
Returns the new promise index. -/
def mkPromise (s : St) (executor : List ExAction) : St × Nat :=
  let (s, pid, prId) := newCapability s
  match runExecutor s prId pid executor with
  | (s, none) => (s, pid)
  | (s, some e) => (pairReject s prId e, pid)

/-- Source `Promise.resolve(val)`: a promise of this implementation is
returned unchanged; anything else is wrapped via a new promise whose
executor resolves with it. -/
def promiseResolve (s : St) (val : Value) : St × Nat :=
  match val with
  | .promiseV pid => (s, pid)
  | _ => mkPromise s [.actResolve val]

/-- Source `Promise.reject(val)`: a new promise whose executor rejects
with the value. -/
def promiseReject (s : St) (val : Value) : St × Nat :=
  mkPromise s [.actReject val]

def bumpRemaining (s : St) (aid : Nat) (d : Int) : St :=
  match s.allRecs.get? aid with
  | none => s
  | some ar => setAllRec s aid { ar with remaining := ar.remaining + d }

/-- The `list.forEach` loop of `Promise.all`: for each element, wrap it
with `Promise.resolve`, increment `remaining`, then register the per-index
completion closure and the shared aggregate reject. -/
def allLoop : St → Nat → Nat → Nat → List Value → St
  | s, _, _, _, [] => s
  | s, aid, aggPr, idx, x :: rest =>
    let (s, t) := promiseResolve s x
    let s := bumpRemaining s aid 1
    let (s, _) := thenCall s t (.hAllElement aid idx) (.hPairReject aggPr)
    allLoop s aid aggPr (idx + 1) rest

/-- Source `Promise.all(list)`: create the aggregate promise capturing its
resolution pair, initialise the closure record (`values`, latches,
`remaining = 1`), run the registration loop, then perform the balancing
decrement and resolve with the `values` array if `remaining` reached
zero.  Returns the aggregate promise index. -/
def all (s : St) (list : List Value) : St × Nat :=
  let (s, pid, prId) := newCapability s
  let aid := s.allRecs.length
  let n := list.length
  let s := { s with allRecs := s.allRecs ++
    [{ prId := prId, slots := List.replicate n none,
       called := List.replicate n false, remaining := 1 }] }
  let s := allLoop s aid prId 0 list
  let s := bumpRemaining s aid (-1)
  match s.allRecs.get? aid with
  | none => (s, pid)
  | some ar =>
    if ar.remaining = 0 then (pairResolve s prId (renderSlots ar.slots), pid)
    else (s, pid)

/-- Source `Promise.race(list)`: create the aggregate promise, then for
each element wrap it with `Promise.resolve` and register the shared
aggregate resolve and reject as its two reaction branches. -/
def race (s : St) (list : List Value) : St × Nat :=
  let (s, pid, prId) := newCapability s
  let s := list.foldl (fun s x =>
    let (s, t) := promiseResolve s x
    (thenCall s t (.hPairResolve prId) (.hPairReject prId)).1) s
  (s, pid)

/-- A value is simple when the thenable probe inside `resolve` finds no
callable `then` member and raises nothing: plain data, fulfilled with
`doFulfill` directly. -/
def isSimple : Value → Bool
  | .promiseV _ => false
  | .thenObj _ => false
  | .thenRejObj _ => false
  | .badThen _ => false
  | _ => true

/-- A thenable chain of depth `n` over base value `b`:
`nestThen (n+1) b = { then: (res, rej) => res(nestThen n b) }`. -/
def nestThen : Nat → Value → Value
  | 0, b => b
  | n + 1, b => .thenObj (nestThen n b)

/-- Scenario for the assimilation cost property: a fresh promise (index 0,
resolution pair 0, executor does nothing) whose resolve function is then
called with a depth `n` thenable chain over `b`. -/
def chainStart (b : Value) (n : Nat) : St :=
  pairResolve (mkPromise st0 []).1 0 (nestThen n b)

/-- Intermediate state of the `chainStart` scenario after `j` queue
round-trips with `rem` thenable layers still to unwrap: promise 0 is
still pending, the first `j + 1` resolution pairs are neutralized, the
last pair is live, and the queue holds exactly the one assimilation job
of the current layer. -/
def chainSt (j : Nat) (b : Value) (rem : Nat) : St :=
  { promises := [freshPromise],
    pairs := List.replicate (j + 1) { alreadyResolved := true, target := 0 } ++
      [{ alreadyResolved := false, target := 0 }],
    allRecs := [],
    queue := [.assimilation (nestThen rem b) (j + 1)],
    log := [] }

/-- Terminal state of the `chainStart` scenario: promise 0 fulfilled with
the base value, all `m` resolution pairs neutralized, queue empty. -/
def chainDone (m : Nat) (b : Value) : St :=
  { promises :=
      [{ state := .fulfilled, value := b, fulfillReactions := [], rejectReactions := [] }],
    pairs := List.replicate m { alreadyResolved := true, target := 0 },
    allRecs := [],
    queue := [],
    log := [] }

/-- Scenario for the FIFO property: a fresh pending promise with three
logging reactions registered in order `t1`, `t2`, `t3`, then settled
through its resolution pair (pair 0). -/
def fifoScenario (t1 t2 t3 : Nat) : St :=
  let r := mkPromise st0 []
  let s := (thenCall r.1 r.2 (.hLog t1) .thrower).1
  let s := (thenCall s r.2 (.hLog t2) .thrower).1
  let s := (thenCall s r.2 (.hLog t3) .thrower).1
  pairResolve s 0 (.num 42)

/-- Scenario for drain exhaustiveness: `p.then(log 1).then(log 2)` with
`p` settled afterwards.  At drain start only the first reaction job is
queued; the second is enqueued by the first one while draining. -/
def chainedScenario : St :=
  let r := mkPromise st0 []
  let r1 := thenCall r.1 r.2 (.hLog 1) .thrower
  let r2 := thenCall r1.1 r1.2 (.hLog 2) .thrower
  pairResolve r2.1 0 (.num 3)

/-- Scenario for `Promise.all` input-order independence: element 0 is a
promise still pending at registration time, element 1 an already available
plain value; element 1 settles first, element 0 afterwards. -/
def allOutOfOrderScenario : Option St :=
  let s := (mkPromise st0 []).1
  let r := all s [.promiseV 0, .num 2]
  (runQueue 9 r.1).bind (fun s2 => runQueue 9 (pairResolve s2 0 (.num 1)))

/-- Promise records allocated by the registration loop of `Promise.all`
over simple input values: per element, the wrapper promise of
`Promise.resolve` (already fulfilled with the element) followed by the
pending derived promise of the `then` registration. -/
def allWrapped : List Value → List PromiseRec
  | [] => []
  | v :: rest => fulfilledRec v :: freshPromise :: allWrapped rest

/-- Resolution pairs allocated by the registration loop of `Promise.all`,
starting at element index `i` for `c` elements: per element, the consumed
constructor pair of the wrapper (dead, targeting promise `2i + 1`) and
the live pair of the derived promise (`2i + 2`). -/
def allPairs : Nat → Nat → List PairRec
  | _, 0 => []
  | i, c + 1 => { alreadyResolved := true, target := 2 * i + 1 } ::
      { alreadyResolved := false, target := 2 * i + 2 } :: allPairs (i + 1) c

/-- Reaction jobs enqueued by the registration loop of `Promise.all` on
already-fulfilled wrappers, starting at element index `i`: the per-index
completion closure and the derived pair `2i + 2`, carrying the element
value. -/
def allJobs : Nat → List Value → List Job
  | _, [] => []
  | i, v :: rest => Job.reaction (.hAllElement 0 i) (2 * i + 2) v :: allJobs (i + 1) rest

/-- Promise records of fully processed `Promise.all` elements: wrapper
fulfilled with the element value, derived promise fulfilled with
undefined by its reaction job. -/
def allDoneP : List Value → List PromiseRec
  | [] => []
  | v :: rest => fulfilledRec v :: fulfilledRec .undef :: allDoneP rest

/-- Resolution pairs of fully processed `Promise.all` elements: both
neutralized. -/
def allDonePairs : Nat → Nat → List PairRec
  | _, 0 => []
  | i, c + 1 => { alreadyResolved := true, target := 2 * i + 1 } ::
      { alreadyResolved := true, target := 2 * i + 2 } :: allDonePairs (i + 1) c

/-- Drain-phase state of `Promise.all` over simple values run from the
initial state: elements of `done` are processed, those of `rest` still
have their reaction jobs queued; the aggregate promise (index 0) is
pending and its pair (index 0) live. -/
def drainSt (done rest : List Value) : St :=
  { promises := freshPromise :: (allDoneP done ++ allWrapped rest),
    pairs := { alreadyResolved := false, target := 0 } ::
      (allDonePairs 0 done.length ++ allPairs done.length rest.length),
    allRecs :=
      [{ prId := 0,
         slots := done.map some ++ List.replicate rest.length none,
         called := List.replicate done.length true ++ List.replicate rest.length false,
         remaining := (rest.length : Int) }],
    queue := allJobs done.length rest,
    log := [] }

/-- Final state of `Promise.all` over simple values run from the initial
state: the aggregate promise fulfilled with the array of results in input
order, everything else settled, queue empty. -/
def allFinal (vs : List Value) : St :=
  { promises := fulfilledRec (.arr vs) :: allDoneP vs,
    pairs := { alreadyResolved := true, target := 0 } :: allDonePairs 0 vs.length,
    allRecs :=
      [{ prId := 0,
         slots := vs.map some,
         called := List.replicate vs.length true,
         remaining := 0 }],
    queue := [],
    log := [] }

/-! ## Helper lemmas about list indexing and the queue -/

theorem get?_concat {α : Type} (l : List α) (a : α) : (l ++ [a]).get? l.length = some a := by
  induction l with
  | nil => rfl
  | cons x xs ih => simpa using ih

theorem get?_front {α : Type} (l l2 : List α) (n : Nat) (h : n < l.length) :
    (l ++ l2).get? n = l.get? n := by
  induction l generalizing n with
  | nil => simp at h
  | cons x xs ih =>
    cases n with
    | zero => rfl
    | succ m => simpa using ih m (by simpa using h)

theorem set_concat {α : Type} (l : List α) (a b : α) : (l ++ [a]).set l.length b = l ++ [b] := by
  induction l with
  | nil => rfl
  | cons x xs ih => simp [List.set, ih]

theorem set_middle {α : Type} (l1 l2 : List α) (a b : α) :
    (l1 ++ a :: l2).set l1.length b = l1 ++ b :: l2 := by
  induction l1 with
  | nil => rfl
  | cons x xs ih => simp [List.set, ih]

theorem get?_append_skip {α : Type} (l1 l2 : List α) (n : Nat) :
    (l1 ++ l2).get? (l1.length + n) = l2.get? n := by
  induction l1 with
  | nil => simp
  | cons x xs ih => simpa [Nat.succ_add] using ih

theorem set_append_skip {α : Type} (l1 l2 : List α) (n : Nat) (b : α) :
    (l1 ++ l2).set (l1.length + n) b = l1 ++ l2.set n b := by
  induction l1 with
  | nil => simp
  | cons x xs ih => simpa [Nat.succ_add, List.set] using ih

theorem get?_set_self {α : Type} (l : List α) (i : Nat) (a b : α) (h : l.get? i = some a) :
    (l.set i b).get? i = some b := by
  induction l generalizing i with
  | nil => simp at h
  | cons x xs ih =>
    cases i with
    | zero => rfl
    | succ n => simpa [List.set] using ih n (by simpa using h)

theorem get?_set_other {α : Type} (l : List α) (i j : Nat) (b : α) (h : i ≠ j) :
    (l.set i b).get? j = l.get? j := by
  induction l generalizing i j with
  | nil => simp
  | cons x xs ih =>
    cases i with
    | zero => cases j with
      | zero => exact absurd rfl h
      | succ m => rfl
    | succ n =>
      cases j with
      | zero => rfl
      | succ m => simpa [List.set] using ih n m (by omega)

theorem get?_some_lt {α : Type} {l : List α} {n : Nat} {a : α} (h : l.get? n = some a) :
    n < l.length := by
  induction l generalizing n with
  | nil => simp at h
  | cons x xs ih =>
    cases n with
    | zero => simp
    | succ m => simpa [Nat.succ_lt_succ_iff] using ih (by simpa using h)

theorem enqueue_foldl (val : Value) (l : List Reaction) (s : St) :
    l.foldl (fun s r => enqueueJob s (mkReactionJob val r)) s =
      { s with queue := s.queue ++ l.map (mkReactionJob val) } := by
  induction l generalizing s with
  | nil => simp
  | cons r rest ih =>
    rw [List.foldl_cons, ih]
    simp [enqueueJob]

/-! ## Specification lemmas for the core operations -/

theorem probeThen_of_simple {v : Value} (h : isSimple v = true) :
    probeThen v = .notThenable := by
  cases v <;> simp [isSimple] at h ⊢ <;> rfl

theorem isSelfOf_of_simple {v : Value} (pid : Nat) (h : isSimple v = true) :
    isSelfOf v pid = false := by
  cases v <;> simp [isSimple] at h ⊢ <;> rfl

theorem doFulfill_spec (s : St) (pid : Nat) (p : PromiseRec) (val : Value)
    (hp : s.promises.get? pid = some p) (hpend : p.state = .pending) :
    doFulfill s pid val =
      { s with
        promises := s.promises.set pid (fulfilledRec val),
        queue := s.queue ++ p.fulfillReactions.map (mkReactionJob val) } := by
  unfold doFulfill
  rw [hp]
  simp [hpend, setP, enqueue_foldl, fulfilledRec]

theorem doReject_spec (s : St) (pid : Nat) (p : PromiseRec) (val : Value)
    (hp : s.promises.get? pid = some p) (hpend : p.state = .pending) :
    doReject s pid val =
      { s with
        promises := s.promises.set pid (rejectedRec val),
        queue := s.queue ++ p.rejectReactions.map (mkReactionJob val) } := by
  unfold doReject
  rw [hp]
  simp [hpend, setP, enqueue_foldl, rejectedRec]

theorem pairReject_spec (s : St) (prId : Nat) (pr : PairRec) (p : PromiseRec) (e : Value)
    (hpr : s.pairs.get? prId = some pr) (hlive : pr.alreadyResolved = false)
    (hp : s.promises.get? pr.target = some p) (hpend : p.state = .pending) :
    pairReject s prId e =
      { s with
        pairs := s.pairs.set prId (deadPair pr.target),
        promises := s.promises.set pr.target (rejectedRec e),
        queue := s.queue ++ p.rejectReactions.map (mkReactionJob e) } := by
  unfold pairReject
  rw [hpr]
  simp only [hlive, Bool.false_eq_true, if_false, setPair]
  rw [show ((s.pairs.set prId ({ pr with alreadyResolved := true }))) =
      s.pairs.set prId (deadPair pr.target) by rfl]
  have hp2 : ({ s with pairs := s.pairs.set prId (deadPair pr.target) } : St).promises.get?
      pr.target = some p := hp
  rw [hp2]
  simp only [hpend, ne_eq, not_true_eq_false, if_false]
  rw [doReject_spec _ _ p _ hp2 hpend]

theorem pairResolve_simple_spec (s : St) (prId : Nat) (pr : PairRec) (p : PromiseRec) (val : Value)
    (hpr : s.pairs.get? prId = some pr) (hlive : pr.alreadyResolved = false)
    (hp : s.promises.get? pr.target = some p) (hpend : p.state = .pending)
    (hval : isSimple val = true) :
    pairResolve s prId val =
      { s with
        pairs := s.pairs.set prId (deadPair pr.target),
        promises := s.promises.set pr.target (fulfilledRec val),
        queue := s.queue ++ p.fulfillReactions.map (mkReactionJob val) } := by
  unfold pairResolve
  rw [hpr]
  simp only [hlive, Bool.false_eq_true, if_false, setPair]
  rw [show ((s.pairs.set prId ({ pr with alreadyResolved := true }))) =
      s.pairs.set prId (deadPair pr.target) by rfl]
  have hp2 : ({ s with pairs := s.pairs.set prId (deadPair pr.target) } : St).promises.get?
      pr.target = some p := hp
  rw [hp2]
  simp only [hpend, ne_eq, not_true_eq_false, if_false,
    isSelfOf_of_simple pr.target hval, probeThen_of_simple hval]
  rw [doFulfill_spec _ _ p _ hp2 hpend]
  simp

theorem pairResolve_thenable_spec (s : St) (prId : Nat) (pr : PairRec) (p : PromiseRec)
    (val : Value)
    (hpr : s.pairs.get? prId = some pr) (hlive : pr.alreadyResolved = false)
    (hp : s.promises.get? pr.target = some p) (hpend : p.state = .pending)
    (hval : probeThen val = .thenableFound) (hns : isSelfOf val pr.target = false) :
    pairResolve s prId val =
      { s with
        pairs := (s.pairs.set prId (deadPair pr.target)) ++ [livePair pr.target],
        queue := s.queue ++ [.assimilation val s.pairs.length] } := by
  unfold pairResolve
  rw [hpr]
  simp only [hlive, Bool.false_eq_true, if_false, setPair]
  rw [show ((s.pairs.set prId ({ pr with alreadyResolved := true }))) =
      s.pairs.set prId (deadPair pr.target) by rfl]
  have hp2 : ({ s with pairs := s.pairs.set prId (deadPair pr.target) } : St).promises.get?
      pr.target = some p := hp
  rw [hp2]
  simp only [hpend, ne_eq, not_true_eq_false, if_false, hns, hval]
  simp [createResolutionFunctions, enqueueJob, livePair]

theorem pairResolve_self_spec (s : St) (prId : Nat) (pr : PairRec) (p : PromiseRec)
    (hpr : s.pairs.get? prId = some pr) (hlive : pr.alreadyResolved = false)
    (hp : s.promises.get? pr.target = some p) (hpend : p.state = .pending) :
    pairResolve s prId (.promiseV pr.target) =
      { s with
        pairs := s.pairs.set prId (deadPair pr.target),
        promises := s.promises.set pr.target (rejectedRec (.typeError "self resolution")),
        queue := s.queue ++
          p.rejectReactions.map (mkReactionJob (.typeError "self resolution")) } := by
  unfold pairResolve
  rw [hpr]
  simp only [hlive, Bool.false_eq_true, if_false, setPair]
  rw [show ((s.pairs.set prId ({ pr with alreadyResolved := true }))) =
      s.pairs.set prId (deadPair pr.target) by rfl]
  have hp2 : ({ s with pairs := s.pairs.set prId (deadPair pr.target) } : St).promises.get?
      pr.target = some p := hp
  rw [hp2]
  have hself : isSelfOf (.promiseV pr.target) pr.target = true := by simp [isSelfOf]
  simp only [hpend, ne_eq, not_true_eq_false, if_false, hself, if_true]
  rw [doReject_spec _ _ p _ hp2 hpend]

/-! ## Further helper lemmas -/

theorem runExecutor_nops (s : St) (prId pid : Nat) (pre l : List ExAction)
    (hpre : ∀ a ∈ pre, a = ExAction.actNop) :
    runExecutor s prId pid (pre ++ l) = runExecutor s prId pid l := by
  induction pre with
  | nil => rfl
  | cons a rest ih =>
    have ha : a = .actNop := hpre a (List.mem_cons_self a rest)
    subst ha
    have h2 : runExecutor s prId pid (ExAction.actNop :: (rest ++ l)) =
        runExecutor s prId pid (rest ++ l) := rfl
    rw [List.cons_append, h2, ih (fun b hb => hpre b (List.mem_cons_of_mem _ hb))]

theorem runQueueEntry_cons_eq (s : St) (j : Job) (rest : List Job) (hq : s.queue = j :: rest) :
    runQueueEntry s = some (runJob { s with queue := rest } j) := by
  unfold runQueueEntry dequeueJob
  rw [hq]

theorem runQueueEntry_nil_eq (s : St) (hq : s.queue = []) : runQueueEntry s = none := by
  unfold runQueueEntry dequeueJob
  rw [hq]

theorem runQueueEntry_cons (s : St) (j : Job) (rest : List Job) (hq : s.queue = j :: rest) :
    ∃ s2, runQueueEntry s = some s2 :=
  ⟨_, runQueueEntry_cons_eq s j rest hq⟩

theorem runQueueEntry_none (s : St) (h : runQueueEntry s = none) : s.queue = [] := by
  cases hq : s.queue with
  | nil => rfl
  | cons j rest =>
    rcases runQueueEntry_cons s j rest hq with ⟨s2, h2⟩
    rw [h2] at h
    cases h

theorem runQueue_drained (fuel : Nat) (s s2 : St) (h : runQueue fuel s = some s2) :
    runQueueEntry s2 = none := by
  induction fuel generalizing s with
  | zero =>
    unfold runQueue at h
    cases hq : runQueueEntry s with
    | none => rw [hq] at h; cases h; exact hq
    | some s3 => rw [hq] at h; cases h
  | succ n ih =>
    unfold runQueue at h
    cases hq : runQueueEntry s with
    | none => rw [hq] at h; cases h; exact hq
    | some s3 => rw [hq] at h; exact ih s3 h

theorem mkPromise_congr (s : St) (ex1 ex2 : List ExAction)
    (h : ∀ (s2 : St) (prId pid : Nat), runExecutor s2 prId pid ex1 = runExecutor s2 prId pid ex2) :
    mkPromise s ex1 = mkPromise s ex2 := by
  unfold mkPromise
  simp only [h]

/-! ## Preservation of settled status -/

theorem statusOf_some (s : St) (pid : Nat) (st : PromiseState) (v : Value)
    (h : statusOf s pid = some (st, v)) :
    ∃ p, s.promises.get? pid = some p ∧ p.state = st ∧ p.value = v := by
  unfold statusOf at h
  cases hp : s.promises.get? pid with
  | none => rw [hp] at h; cases h
  | some p =>
    rw [hp] at h
    simp at h
    exact ⟨p, rfl, h.1, h.2⟩

theorem statusOf_setP_other (s : St) (q pid : Nat) (r : PromiseRec) (hne : q ≠ pid) :
    statusOf (setP s q r) pid = statusOf s pid := by
  show ((s.promises.set q r).get? pid).map (fun p => (p.state, p.value)) = statusOf s pid
  rw [get?_set_other _ _ _ _ hne]
  rfl

theorem statusOf_setP_self (s : St) (q : Nat) (r : PromiseRec) (p : PromiseRec)
    (hp : s.promises.get? q = some p) :
    statusOf (setP s q r) q = some (r.state, r.value) := by
  show ((s.promises.set q r).get? q).map (fun p => (p.state, p.value)) = _
  rw [get?_set_self _ _ p _ hp]
  rfl

theorem pres_doFulfill (s : St) (q : Nat) (val : Value) (pid : Nat) (st : PromiseState)
    (v : Value) (h : statusOf s pid = some (st, v)) (hst : st ≠ .pending) :
    statusOf (doFulfill s q val) pid = some (st, v) := by
  obtain ⟨p, hp, hps, hpv⟩ := statusOf_some s pid st v h
  simp only [doFulfill]
  split
  · exact h
  next pq hq =>
    split
    · exact h
    next hqp =>
      have hqp2 : pq.state = .pending := not_not.mp hqp
      have hne : q ≠ pid := by
        intro he
        subst he
        rw [hp] at hq
        cases hq
        exact hst (hps ▸ hqp2)
      rw [enqueue_foldl]
      exact ((statusOf_setP_other s q pid
        { state := .fulfilled, value := val, fulfillReactions := [], rejectReactions := [] }
        hne).trans h : _)

theorem pres_doReject (s : St) (q : Nat) (val : Value) (pid : Nat) (st : PromiseState)
    (v : Value) (h : statusOf s pid = some (st, v)) (hst : st ≠ .pending) :
    statusOf (doReject s q val) pid = some (st, v) := by
  obtain ⟨p, hp, hps, hpv⟩ := statusOf_some s pid st v h
  simp only [doReject]
  split
  · exact h
  next pq hq =>
    split
    · exact h
    next hqp =>
      have hqp2 : pq.state = .pending := not_not.mp hqp
      have hne : q ≠ pid := by
        intro he
        subst he
        rw [hp] at hq
        cases hq
        exact hst (hps ▸ hqp2)
      rw [enqueue_foldl]
      exact ((statusOf_setP_other s q pid
        { state := .rejected, value := val, fulfillReactions := [], rejectReactions := [] }
        hne).trans h : _)

theorem pres_pairResolve (s : St) (prId : Nat) (val : Value) (pid : Nat) (st : PromiseState)
    (v : Value) (h : statusOf s pid = some (st, v)) (hst : st ≠ .pending) :
    statusOf (pairResolve s prId val) pid = some (st, v) := by
  simp only [pairResolve]
  split
  · exact h
  next pr hpr =>
    split
    · exact h
    · split
      · exact h
      next pq hq =>
        split
        · exact h
        next hqp =>
          split
          · exact pres_doReject _ _ _ pid st v h hst
          · split
            · exact h
            · exact pres_doReject _ _ _ pid st v h hst
            · exact pres_doFulfill _ _ _ pid st v h hst

theorem pres_pairReject (s : St) (prId : Nat) (val : Value) (pid : Nat) (st : PromiseState)
    (v : Value) (h : statusOf s pid = some (st, v)) (hst : st ≠ .pending) :
    statusOf (pairReject s prId val) pid = some (st, v) := by
  simp only [pairReject]
  split
  · exact h
  next pr hpr =>
    split
    · exact h
    · split
      · exact h
      next pq hq =>
        split
        · exact h
        next hqp => exact pres_doReject _ _ _ pid st v h hst

theorem pres_thenCall (s : St) (src : Nat) (f g : Handler) (pid : Nat) (st : PromiseState)
    (v : Value) (h : statusOf s pid = some (st, v)) :
    statusOf (thenCall s src f g).1 pid = some (st, v) := by
  obtain ⟨p, hp, hps, hpv⟩ := statusOf_some s pid st v h
  have hlt : pid < s.promises.length := get?_some_lt hp
  have hcap : statusOf
      { s with
        promises := s.promises ++ [freshPromise],
        pairs := s.pairs ++ [{ alreadyResolved := false, target := s.promises.length }] }
      pid = some (st, v) := by
    show ((s.promises ++ [freshPromise]).get? pid).map (fun p => (p.state, p.value)) = _
    rw [get?_front _ _ _ hlt, hp]
    simp [hps, hpv]
  simp only [thenCall, newCapability, createResolutionFunctions]
  split
  · exact hcap
  next pq hq =>
    split
    · -- pending: reaction lists of src are extended, state and value unchanged
      by_cases hne : src = pid
      · subst hne
        rw [get?_front _ _ _ hlt, hp] at hq
        cases hq
        have hbig : ({ s with
            promises := s.promises ++ [freshPromise],
            pairs := s.pairs ++ [{ alreadyResolved := false, target := s.promises.length }] }
            : St).promises.get? src = some p := by
          show (s.promises ++ [freshPromise]).get? src = some p
          rw [get?_front _ _ _ hlt]
          exact hp
        have h2 := statusOf_setP_self _ src
          { p with
            fulfillReactions := p.fulfillReactions ++ [{ handler := f, prId := s.pairs.length }],
            rejectReactions := p.rejectReactions ++ [{ handler := g, prId := s.pairs.length }] }
          p hbig
        exact h2.trans (by simp [hps, hpv])
      · exact ((statusOf_setP_other _ src pid _ hne).trans hcap : _)
    · exact hcap
    · exact hcap

theorem pres_runHandler (s : St) (hh : Handler) (val : Value) (pid : Nat) (st : PromiseState)
    (v : Value) (h : statusOf s pid = some (st, v)) (hst : st ≠ .pending) :
    statusOf (runHandler s hh val).1 pid = some (st, v) := by
  cases hh with
  | identity => exact h
  | thrower => exact h
  | hConst c => exact h
  | hLog tag => exact h
  | hThrow c => exact h
  | hPairResolve prId => exact pres_pairResolve _ _ _ pid st v h hst
  | hPairReject prId => exact pres_pairReject _ _ _ pid st v h hst
  | hAllElement aid idx =>
    simp only [runHandler]
    split
    · exact h
    next ar har =>
      split
      · exact h
      · split
        · exact pres_pairResolve _ _ _ pid st v h hst
        · exact h

theorem pres_runJob (s : St) (j : Job) (pid : Nat) (st : PromiseState) (v : Value)
    (h : statusOf s pid = some (st, v)) (hst : st ≠ .pending) :
    statusOf (runJob s j) pid = some (st, v) := by
  cases j with
  | assimilation th prId =>
    cases th with
    | promiseV q => exact pres_thenCall _ _ _ _ pid st v h
    | thenObj inner => exact pres_pairResolve _ _ _ pid st v h hst
    | thenRejObj inner => exact pres_pairReject _ _ _ pid st v h hst
    | undef => exact h
    | num n => exact h
    | str msg => exact h
    | typeError msg => exact h
    | errV tag => exact h
    | arr vs => exact h
    | badThen tag => exact h
    | plainObj => exact h
  | reaction hh prId val =>
    have hrj : runJob s (Job.reaction hh prId val) =
        match runHandler s hh val with
        | (s2, .ok res) => pairResolve s2 prId res
        | (s2, .error e) => pairReject s2 prId e := rfl
    rw [hrj]
    rcases hr : runHandler s hh val with ⟨s3, r⟩
    have h3 : statusOf s3 pid = some (st, v) := by
      have h4 := pres_runHandler s hh val pid st v h hst
      rw [hr] at h4
      exact h4
    cases r with
    | ok res => exact pres_pairResolve _ _ _ pid st v h3 hst
    | error e => exact pres_pairReject _ _ _ pid st v h3 hst

theorem pres_runQueueEntry (s s2 : St) (hstep : runQueueEntry s = some s2) (pid : Nat)
    (st : PromiseState) (v : Value) (h : statusOf s pid = some (st, v))
    (hst : st ≠ .pending) :
    statusOf s2 pid = some (st, v) := by
  cases hq : s.queue with
  | nil => rw [runQueueEntry_nil_eq s hq] at hstep; cases hstep
  | cons j rest =>
    rw [runQueueEntry_cons_eq s j rest hq] at hstep
    cases hstep
    exact pres_runJob { s with queue := rest } j pid st v h hst

theorem pres_runQueue (fuel : Nat) (s s2 : St) (hrun : runQueue fuel s = some s2) (pid : Nat)
    (st : PromiseState) (v : Value) (h : statusOf s pid = some (st, v))
    (hst : st ≠ .pending) :
    statusOf s2 pid = some (st, v) := by
  induction fuel generalizing s with
  | zero =>
    unfold runQueue at hrun
    cases hq : runQueueEntry s with
    | none => rw [hq] at hrun; cases hrun; exact h
    | some s3 => rw [hq] at hrun; cases hrun
  | succ n ih =>
    unfold runQueue at hrun
    cases hq : runQueueEntry s with
    | none => rw [hq] at hrun; cases hrun; exact h
    | some s3 =>
      rw [hq] at hrun
      exact ih s3 hrun (pres_runQueueEntry s s3 hq pid st v h hst)

/-! ## The thenable assimilation chain -/

theorem chainStart_eq (m : Nat) (b : Value) : chainStart b (m + 1) = chainSt 0 b (m + 1) := rfl

theorem chain_step (j r : Nat) (b : Value) :
    runQueueEntry (chainSt j b (r + 2)) = some (chainSt (j + 1) b (r + 1)) := by
  rw [runQueueEntry_cons_eq _ _ _ rfl]
  congr 1
  have hlen : (List.replicate (j + 1)
      ({ alreadyResolved := true, target := 0 } : PairRec)).length = j + 1 :=
    List.length_replicate _ _
  have hpr := get?_concat (List.replicate (j + 1)
    ({ alreadyResolved := true, target := 0 } : PairRec))
    ({ alreadyResolved := false, target := 0 } : PairRec)
  rw [hlen] at hpr
  have hset := set_concat (List.replicate (j + 1)
    ({ alreadyResolved := true, target := 0 } : PairRec))
    ({ alreadyResolved := false, target := 0 } : PairRec)
    ({ alreadyResolved := true, target := 0 } : PairRec)
  rw [hlen] at hset
  show pairResolve
    { promises := [freshPromise],
      pairs := List.replicate (j + 1) { alreadyResolved := true, target := 0 } ++
        [{ alreadyResolved := false, target := 0 }],
      allRecs := [], queue := [], log := [] }
    (j + 1) (nestThen (r + 1) b) = chainSt (j + 1) b (r + 1)
  have h2 := pairResolve_thenable_spec
    { promises := [freshPromise],
      pairs := List.replicate (j + 1) { alreadyResolved := true, target := 0 } ++
        [{ alreadyResolved := false, target := 0 }],
      allRecs := [], queue := [], log := [] }
    (j + 1) { alreadyResolved := false, target := 0 } freshPromise
    (nestThen (r + 1) b) hpr rfl rfl rfl rfl rfl
  rw [h2]
  simp only [deadPair, livePair]
  rw [hset]
  simp [chainSt, List.replicate_succ', List.length_append, List.length_replicate]

theorem chain_last (j : Nat) (b : Value) (hb : isSimple b = true) :
    runQueueEntry (chainSt j b 1) = some (chainDone (j + 2) b) := by
  rw [runQueueEntry_cons_eq _ _ _ rfl]
  congr 1
  have hlen : (List.replicate (j + 1)
      ({ alreadyResolved := true, target := 0 } : PairRec)).length = j + 1 :=
    List.length_replicate _ _
  have hpr := get?_concat (List.replicate (j + 1)
    ({ alreadyResolved := true, target := 0 } : PairRec))
    ({ alreadyResolved := false, target := 0 } : PairRec)
  rw [hlen] at hpr
  have hset := set_concat (List.replicate (j + 1)
    ({ alreadyResolved := true, target := 0 } : PairRec))
    ({ alreadyResolved := false, target := 0 } : PairRec)
    ({ alreadyResolved := true, target := 0 } : PairRec)
  rw [hlen] at hset
  show pairResolve
    { promises := [freshPromise],
      pairs := List.replicate (j + 1) { alreadyResolved := true, target := 0 } ++
        [{ alreadyResolved := false, target := 0 }],
      allRecs := [], queue := [], log := [] }
    (j + 1) b = chainDone (j + 2) b
  have h2 := pairResolve_simple_spec
    { promises := [freshPromise],
      pairs := List.replicate (j + 1) { alreadyResolved := true, target := 0 } ++
        [{ alreadyResolved := false, target := 0 }],
      allRecs := [], queue := [], log := [] }
    (j + 1) { alreadyResolved := false, target := 0 } freshPromise b hpr rfl rfl rfl hb
  rw [h2]
  simp only [deadPair, livePair]
  rw [hset]
  simp [chainDone, fulfilledRec, freshPromise, List.replicate_succ']

theorem chain_drain (r j : Nat) (b : Value) (hb : isSimple b = true) :
    stepN (r + 1) (chainSt j b (r + 1)) = some (chainDone (j + r + 2) b) := by
  induction r generalizing j with
  | zero =>
    show (runQueueEntry (chainSt j b 1)).bind (stepN 0) = _
    rw [chain_last j b hb]
    rfl
  | succ r ih =>
    show (runQueueEntry (chainSt j b (r + 2))).bind (stepN (r + 1)) = _
    rw [chain_step j r b]
    show stepN (r + 1) (chainSt (j + 1) b (r + 1)) = _
    rw [ih (j + 1), show j + 1 + r + 2 = j + (r + 1) + 2 from by omega]

theorem chain_partial (k j rem : Nat) (b : Value) (hk : k < rem) :
    stepN k (chainSt j b rem) = some (chainSt (j + k) b (rem - k)) := by
  induction k generalizing j rem with
  | zero => rfl
  | succ k ih =>
    match rem, hk with
    | r + 2, hk =>
      show (runQueueEntry (chainSt j b (r + 2))).bind (stepN k) = _
      rw [chain_step j r b]
      show stepN k (chainSt (j + 1) b (r + 1)) = _
      rw [ih (j + 1) (r + 1) (by omega)]
      congr 2
      · omega
      · omega

/-! ## Promise.all over simple values: the registration loop -/

theorem promiseResolve_simple (s : St) (x : Value) (hx : isSimple x = true) :
    promiseResolve s x = mkPromise s [.actResolve x] := by
  cases x <;> first | rfl | simp [isSimple] at hx

theorem thenCall_fulfilled (s : St) (src : Nat) (p : PromiseRec) (f g : Handler)
    (hp : s.promises.get? src = some p) (hf : p.state = .fulfilled) :
    (thenCall s src f g).1 =
      enqueueJob
        { s with
          promises := s.promises ++ [freshPromise],
          pairs := s.pairs ++ [{ alreadyResolved := false, target := s.promises.length }] }
        (.reaction f s.pairs.length p.value) := by
  have hlt : src < s.promises.length := get?_some_lt hp
  have hq : (s.promises ++ [freshPromise]).get? src = some p := by
    rw [get?_front _ _ _ hlt]
    exact hp
  simp only [thenCall, newCapability, createResolutionFunctions]
  split
  next h0 => rw [hq] at h0; cases h0
  next p2 h0 =>
    rw [hq] at h0
    cases h0
    split
    next h1 => rw [hf] at h1; cases h1
    next h1 => rfl
    next h1 => rw [hf] at h1; cases h1

theorem allLoop_step (i : Nat) (P : List PromiseRec) (Q : List PairRec) (J : List Job)
    (ar : AllRec) (x : Value) (r : List Value) (hx : isSimple x = true) :
    allLoop { promises := P, pairs := Q, allRecs := [ar], queue := J, log := [] }
      0 0 i (x :: r) =
    allLoop
      { promises := P ++ [fulfilledRec x, freshPromise],
        pairs := Q ++ [{ alreadyResolved := true, target := P.length },
          { alreadyResolved := false, target := P.length + 1 }],
        allRecs := [{ ar with remaining := ar.remaining + 1 }],
        queue := J ++ [.reaction (.hAllElement 0 i) (Q.length + 1) x],
        log := [] }
      0 0 (i + 1) r := by
  rw [show allLoop { promises := P, pairs := Q, allRecs := [ar], queue := J, log := [] }
      0 0 i (x :: r) =
    (allLoop (thenCall (bumpRemaining
      (promiseResolve { promises := P, pairs := Q, allRecs := [ar], queue := J, log := [] } x).1
      0 1)
      (promiseResolve { promises := P, pairs := Q, allRecs := [ar], queue := J, log := [] } x).2
      (.hAllElement 0 i) (.hPairReject 0)).1 0 0 (i + 1) r) from rfl]
  rw [promiseResolve_simple _ x hx]
  rw [show mkPromise { promises := P, pairs := Q, allRecs := [ar], queue := J, log := [] }
      [.actResolve x] =
    (pairResolve
      { promises := P ++ [freshPromise],
        pairs := Q ++ [{ alreadyResolved := false, target := P.length }],
        allRecs := [ar], queue := J, log := [] }
      Q.length x, P.length) from rfl]
  have h2 := pairResolve_simple_spec
    { promises := P ++ [freshPromise],
      pairs := Q ++ [{ alreadyResolved := false, target := P.length }],
      allRecs := [ar], queue := J, log := [] }
    Q.length { alreadyResolved := false, target := P.length } freshPromise x
    (get?_concat _ _) rfl (get?_concat _ _) rfl hx
  rw [h2]
  simp only [deadPair]
  rw [set_concat, set_concat]
  congr 1
  rw [show List.map (mkReactionJob x) freshPromise.fulfillReactions = ([] : List Job)
    from rfl]
  rw [List.append_nil]
  rw [show bumpRemaining
      { promises := P ++ [fulfilledRec x],
        pairs := Q ++ [{ alreadyResolved := true, target := P.length }],
        allRecs := [ar], queue := J, log := [] } 0 1 =
      { promises := P ++ [fulfilledRec x],
        pairs := Q ++ [{ alreadyResolved := true, target := P.length }],
        allRecs := [{ ar with remaining := ar.remaining + 1 }],
        queue := J, log := [] } from rfl]
  rw [thenCall_fulfilled _ P.length (fulfilledRec x) (.hAllElement 0 i) (.hPairReject 0)
    (get?_concat _ _) rfl]
  simp [enqueueJob, freshPromise, fulfilledRec, List.length_append]

theorem allLoop_spec (rest : List Value) :
    ∀ (i : Nat) (P : List PromiseRec) (Q : List PairRec) (J : List Job) (ar : AllRec),
    (∀ v ∈ rest, isSimple v = true) → P.length = 2 * i + 1 → Q.length = 2 * i + 1 →
    allLoop { promises := P, pairs := Q, allRecs := [ar], queue := J, log := [] }
      0 0 i rest =
      { promises := P ++ allWrapped rest,
        pairs := Q ++ allPairs i rest.length,
        allRecs := [{ ar with remaining := ar.remaining + rest.length }],
        queue := J ++ allJobs i rest,
        log := [] } := by
  induction rest with
  | nil =>
    intro i P Q J ar h hP hQ
    simp [allLoop, allWrapped, allPairs, allJobs]
  | cons x r ih =>
    intro i P Q J ar h hP hQ
    rw [allLoop_step i P Q J ar x r (h x (by simp))]
    rw [ih (i + 1) (P ++ [fulfilledRec x, freshPromise]) _ _ _
      (fun v hv => h v (by simp [hv]))
      (by simp [List.length_append, hP]; omega)
      (by simp [List.length_append, hQ]; omega)]
    simp only [allWrapped, allPairs, allJobs, hP, hQ, List.length_cons, St.mk.injEq,
      AllRec.mk.injEq, List.append_assoc, List.cons_append, List.nil_append,
      List.singleton_append, and_true, true_and]
    push_cast
    rw [show ar.remaining + 1 + (r.length : Int) = ar.remaining + ((r.length : Int) + 1)
      from by omega]

theorem all_eq_drainSt (vs : List Value) (h : ∀ v ∈ vs, isSimple v = true) (hne : vs ≠ []) :
    all st0 vs = (drainSt [] vs, 0) := by
  unfold all
  simp only [newCapability, createResolutionFunctions, st0, List.nil_append, List.length_nil]
  rw [allLoop_spec vs 0 [freshPromise] [{ alreadyResolved := false, target := 0 }] []
    { prId := 0, slots := List.replicate vs.length none,
      called := List.replicate vs.length false, remaining := 1 } h rfl rfl]
  show (if ((1 : Int) + (vs.length : Int) + -1) = 0 then _
    else ({ promises := [freshPromise] ++ allWrapped vs,
            pairs := [{ alreadyResolved := false, target := 0 }] ++ allPairs 0 vs.length,
            allRecs :=
              [{ prId := 0,
                 slots := List.replicate vs.length none,
                 called := List.replicate vs.length false,
                 remaining := 1 + (vs.length : Int) + -1 }],
            queue := [] ++ allJobs 0 vs,
            log := [] }, 0)) = (drainSt [] vs, 0)
  rw [if_neg (by have := List.length_pos.mpr hne; omega)]
  simp [drainSt, allDoneP, St.mk.injEq, AllRec.mk.injEq]
  rfl

/-! ## Promise.all over simple values: the drain phase -/

theorem allDoneP_length (done : List Value) : (allDoneP done).length = 2 * done.length := by
  induction done with
  | nil => rfl
  | cons v rest ih => simp [allDoneP, ih]; omega

theorem allDonePairs_length (c : Nat) : ∀ i, (allDonePairs i c).length = 2 * c := by
  induction c with
  | zero => intro i; rfl
  | succ c ih => intro i; simp [allDonePairs, ih]; omega

theorem allDoneP_snoc (done : List Value) (x : Value) :
    allDoneP (done ++ [x]) = allDoneP done ++ [fulfilledRec x, fulfilledRec .undef] := by
  induction done with
  | nil => rfl
  | cons v rest ih => simp [allDoneP, ih]

theorem allDonePairs_snoc (c : Nat) : ∀ i,
    allDonePairs i (c + 1) = allDonePairs i c ++
      [{ alreadyResolved := true, target := 2 * (i + c) + 1 },
       { alreadyResolved := true, target := 2 * (i + c) + 2 }] := by
  induction c with
  | zero =>
    intro i
    simp [allDonePairs]
  | succ c ih =>
    intro i
    show ({ alreadyResolved := true, target := 2 * i + 1 } : PairRec) ::
      { alreadyResolved := true, target := 2 * i + 2 } :: allDonePairs (i + 1) (c + 1) = _
    rw [ih (i + 1)]
    have h1 : 2 * (i + 1 + c) + 1 = 2 * (i + (c + 1)) + 1 := by omega
    have h2 : 2 * (i + 1 + c) + 2 = 2 * (i + (c + 1)) + 2 := by omega
    rw [h1, h2]
    rfl

theorem renderSlots_some (vs : List Value) : renderSlots (vs.map some) = .arr vs := by
  unfold renderSlots
  rw [List.map_map]
  have h1 : List.map ((fun o => o.getD Value.undef) ∘ some) vs = vs := by
    induction vs with
    | nil => rfl
    | cons v rest ih => simp only [List.map_cons, ih]; rfl
  rw [h1]

theorem set_cons_two {α : Type} (a : α) (l : List α) (n : Nat) (b : α) :
    (a :: l).set (2 * n + 2) b = a :: l.set (2 * n + 1) b := rfl

theorem drain_step_mid (done : List Value) (x y : Value) (r2 : List Value) :
    runQueueEntry (drainSt done (x :: y :: r2)) = some (drainSt (done ++ [x]) (y :: r2)) := by
  rw [runQueueEntry_cons_eq (drainSt done (x :: y :: r2))
    (.reaction (.hAllElement 0 done.length) (2 * done.length + 2) x)
    (allJobs (done.length + 1) (y :: r2)) rfl]
  congr 1
  simp only [drainSt]
  rw [show runJob
      { promises := freshPromise :: (allDoneP done ++ allWrapped (x :: y :: r2)),
        pairs := { alreadyResolved := false, target := 0 } ::
          (allDonePairs 0 done.length ++ allPairs done.length (x :: y :: r2).length),
        allRecs :=
          [{ prId := 0,
             slots := done.map some ++ List.replicate (x :: y :: r2).length none,
             called := List.replicate done.length true ++
               List.replicate (x :: y :: r2).length false,
             remaining := ((x :: y :: r2).length : Int) }],
        queue := allJobs (done.length + 1) (y :: r2),
        log := [] }
      (.reaction (.hAllElement 0 done.length) (2 * done.length + 2) x) =
    (match runHandler
      { promises := freshPromise :: (allDoneP done ++ allWrapped (x :: y :: r2)),
        pairs := { alreadyResolved := false, target := 0 } ::
          (allDonePairs 0 done.length ++ allPairs done.length (x :: y :: r2).length),
        allRecs :=
          [{ prId := 0,
             slots := done.map some ++ List.replicate (x :: y :: r2).length none,
             called := List.replicate done.length true ++
               List.replicate (x :: y :: r2).length false,
             remaining := ((x :: y :: r2).length : Int) }],
        queue := allJobs (done.length + 1) (y :: r2),
        log := [] }
      (.hAllElement 0 done.length) x with
     | (s2, .ok res) => pairResolve s2 (2 * done.length + 2) res
     | (s2, .error e) => pairReject s2 (2 * done.length + 2) e) from rfl]
  have hcall : (List.replicate done.length true ++
      List.replicate (x :: y :: r2).length false).getD done.length false = false := by
    show ((List.replicate done.length true ++
      List.replicate (x :: y :: r2).length false).get? done.length).getD false = false
    have h1 := get?_append_skip (List.replicate done.length true)
      (List.replicate (x :: y :: r2).length false) 0
    rw [List.length_replicate, Nat.add_zero] at h1
    rw [h1]
    rfl
  have hrem : ¬((((x :: y :: r2).length : Int)) - 1 = 0) := by
    simp only [List.length_cons]
    push_cast
    omega
  have hH : runHandler
      { promises := freshPromise :: (allDoneP done ++ allWrapped (x :: y :: r2)),
        pairs := { alreadyResolved := false, target := 0 } ::
          (allDonePairs 0 done.length ++ allPairs done.length (x :: y :: r2).length),
        allRecs :=
          [{ prId := 0,
             slots := done.map some ++ List.replicate (x :: y :: r2).length none,
             called := List.replicate done.length true ++
               List.replicate (x :: y :: r2).length false,
             remaining := ((x :: y :: r2).length : Int) }],
        queue := allJobs (done.length + 1) (y :: r2),
        log := [] }
      (.hAllElement 0 done.length) x =
    ({ promises := freshPromise :: (allDoneP done ++ allWrapped (x :: y :: r2)),
       pairs := { alreadyResolved := false, target := 0 } ::
         (allDonePairs 0 done.length ++ allPairs done.length (x :: y :: r2).length),
       allRecs :=
         [{ prId := 0,
            slots := (done.map some ++ List.replicate (x :: y :: r2).length none).set
              done.length (some x),
            called := (List.replicate done.length true ++
              List.replicate (x :: y :: r2).length false).set done.length true,
            remaining := ((x :: y :: r2).length : Int) - 1 }],
       queue := allJobs (done.length + 1) (y :: r2),
       log := [] }, .ok .undef) := by
    show (if (List.replicate done.length true ++
        List.replicate (x :: y :: r2).length false).getD done.length false = true
      then _ else _) = _
    rw [hcall]
    simp only [Bool.false_eq_true, if_false]
    rw [if_neg hrem]
    rfl
  rw [hH]
  show pairResolve
    { promises := freshPromise :: (allDoneP done ++ allWrapped (x :: y :: r2)),
      pairs := { alreadyResolved := false, target := 0 } ::
        (allDonePairs 0 done.length ++ allPairs done.length (x :: y :: r2).length),
      allRecs :=
        [{ prId := 0,
           slots := (done.map some ++ List.replicate (x :: y :: r2).length none).set
             done.length (some x),
           called := (List.replicate done.length true ++
             List.replicate (x :: y :: r2).length false).set done.length true,
           remaining := ((x :: y :: r2).length : Int) - 1 }],
      queue := allJobs (done.length + 1) (y :: r2),
      log := [] }
    (2 * done.length + 2) .undef = drainSt (done ++ [x]) (y :: r2)
  have hpr : (({ alreadyResolved := false, target := 0 } : PairRec) ::
      (allDonePairs 0 done.length ++
        allPairs done.length (x :: y :: r2).length)).get? (2 * done.length + 2) =
      some { alreadyResolved := false, target := 2 * done.length + 2 } := by
    show (allDonePairs 0 done.length ++
      allPairs done.length (x :: y :: r2).length).get? (2 * done.length + 1) = _
    have h1 := get?_append_skip (allDonePairs 0 done.length)
      (allPairs done.length (x :: y :: r2).length) 1
    rw [allDonePairs_length] at h1
    rw [h1]
    rfl
  have hp : (freshPromise ::
      (allDoneP done ++ allWrapped (x :: y :: r2))).get? (2 * done.length + 2) =
      some freshPromise := by
    show (allDoneP done ++ allWrapped (x :: y :: r2)).get? (2 * done.length + 1) = _
    have h1 := get?_append_skip (allDoneP done) (allWrapped (x :: y :: r2)) 1
    rw [allDoneP_length] at h1
    rw [h1]
    rfl
  have h3 := pairResolve_simple_spec
    { promises := freshPromise :: (allDoneP done ++ allWrapped (x :: y :: r2)),
      pairs := { alreadyResolved := false, target := 0 } ::
        (allDonePairs 0 done.length ++ allPairs done.length (x :: y :: r2).length),
      allRecs :=
        [{ prId := 0,
           slots := (done.map some ++ List.replicate (x :: y :: r2).length none).set
             done.length (some x),
           called := (List.replicate done.length true ++
             List.replicate (x :: y :: r2).length false).set done.length true,
           remaining := ((x :: y :: r2).length : Int) - 1 }],
      queue := allJobs (done.length + 1) (y :: r2),
      log := [] }
    (2 * done.length + 2) { alreadyResolved := false, target := 2 * done.length + 2 }
    freshPromise .undef hpr rfl hp rfl rfl
  rw [h3]
  have hP5 : (freshPromise :: (allDoneP done ++ allWrapped (x :: y :: r2))).set
      (2 * done.length + 2) (fulfilledRec .undef) =
      freshPromise :: (allDoneP (done ++ [x]) ++ allWrapped (y :: r2)) := by
    show freshPromise :: ((allDoneP done ++ allWrapped (x :: y :: r2)).set
      (2 * done.length + 1) (fulfilledRec .undef)) = _
    have h4 := set_append_skip (allDoneP done) (allWrapped (x :: y :: r2)) 1
      (fulfilledRec .undef)
    rw [allDoneP_length] at h4
    rw [h4]
    rw [allDoneP_snoc]
    show freshPromise :: (allDoneP done ++
      (fulfilledRec x :: fulfilledRec .undef :: allWrapped (y :: r2))) = _
    simp [List.append_assoc]
  have hQ5 : (({ alreadyResolved := false, target := 0 } : PairRec) ::
      (allDonePairs 0 done.length ++ allPairs done.length (x :: y :: r2).length)).set
      (2 * done.length + 2) (deadPair (2 * done.length + 2)) =
      { alreadyResolved := false, target := 0 } ::
        (allDonePairs 0 (done ++ [x]).length ++
          allPairs (done ++ [x]).length (y :: r2).length) := by
    show ({ alreadyResolved := false, target := 0 } : PairRec) ::
      ((allDonePairs 0 done.length ++ allPairs done.length (x :: y :: r2).length).set
        (2 * done.length + 1) (deadPair (2 * done.length + 2))) = _
    have h4 := set_append_skip (allDonePairs 0 done.length)
      (allPairs done.length (x :: y :: r2).length) 1 (deadPair (2 * done.length + 2))
    rw [allDonePairs_length] at h4
    rw [h4]
    rw [show (done ++ [x]).length = done.length + 1 from by simp]
    rw [allDonePairs_snoc]
    show ({ alreadyResolved := false, target := 0 } : PairRec) ::
      (allDonePairs 0 done.length ++
        ({ alreadyResolved := true, target := 2 * done.length + 1 } ::
         deadPair (2 * done.length + 2) :: allPairs (done.length + 1) (y :: r2).length)) = _
    simp [List.append_assoc, deadPair]
  have hslots : (List.map some done ++ List.replicate (x :: y :: r2).length none).set
      done.length (some x) =
      List.map some (done ++ [x]) ++ List.replicate (y :: r2).length none := by
    have h4 := set_append_skip (List.map some done)
      (List.replicate (x :: y :: r2).length none) 0 (some x)
    rw [List.length_map, Nat.add_zero] at h4
    rw [h4]
    show List.map some done ++ (some x :: List.replicate (y :: r2).length none) = _
    rw [List.map_append]
    simp
  have hcalled : (List.replicate done.length true ++
      List.replicate (x :: y :: r2).length false).set done.length true =
      List.replicate (done ++ [x]).length true ++
        List.replicate (y :: r2).length false := by
    have h4 := set_append_skip (List.replicate done.length true)
      (List.replicate (x :: y :: r2).length false) 0 true
    rw [List.length_replicate, Nat.add_zero] at h4
    rw [h4]
    show List.replicate done.length true ++
      (true :: List.replicate (y :: r2).length false) = _
    rw [show (done ++ [x]).length = done.length + 1 from by simp]
    rw [List.replicate_succ']
    simp
  have hrem2 : ((x :: y :: r2).length : Int) - 1 = ((y :: r2).length : Int) := by
    simp
  have hqueue : allJobs (done.length + 1) (y :: r2) ++
      List.map (mkReactionJob .undef) freshPromise.fulfillReactions =
      allJobs (done ++ [x]).length (y :: r2) := by
    rw [show List.map (mkReactionJob Value.undef) freshPromise.fulfillReactions =
      ([] : List Job) from rfl]
    rw [List.append_nil]
    rw [show (done ++ [x]).length = done.length + 1 from by simp]
  simp only [drainSt, St.mk.injEq]
  exact ⟨hP5, hQ5, by rw [hslots, hcalled, hrem2], hqueue, trivial⟩

theorem drain_step_last (done : List Value) (x : Value) :
    runQueueEntry (drainSt done [x]) = some (allFinal (done ++ [x])) := by
  rw [runQueueEntry_cons_eq (drainSt done [x])
    (.reaction (.hAllElement 0 done.length) (2 * done.length + 2) x) [] rfl]
  congr 1
  simp only [drainSt]
  rw [show runJob
      { promises := freshPromise :: (allDoneP done ++ allWrapped [x]),
        pairs := { alreadyResolved := false, target := 0 } ::
          (allDonePairs 0 done.length ++ allPairs done.length [x].length),
        allRecs :=
          [{ prId := 0,
             slots := done.map some ++ List.replicate [x].length none,
             called := List.replicate done.length true ++ List.replicate [x].length false,
             remaining := (([x].length : Nat) : Int) }],
        queue := [],
        log := [] }
      (.reaction (.hAllElement 0 done.length) (2 * done.length + 2) x) =
    (match runHandler
      { promises := freshPromise :: (allDoneP done ++ allWrapped [x]),
        pairs := { alreadyResolved := false, target := 0 } ::
          (allDonePairs 0 done.length ++ allPairs done.length [x].length),
        allRecs :=
          [{ prId := 0,
             slots := done.map some ++ List.replicate [x].length none,
             called := List.replicate done.length true ++ List.replicate [x].length false,
             remaining := (([x].length : Nat) : Int) }],
        queue := [],
        log := [] }
      (.hAllElement 0 done.length) x with
     | (s2, .ok res) => pairResolve s2 (2 * done.length + 2) res
     | (s2, .error e) => pairReject s2 (2 * done.length + 2) e) from rfl]
  have hcall : (List.replicate done.length true ++
      List.replicate [x].length false).getD done.length false = false := by
    show ((List.replicate done.length true ++
      List.replicate [x].length false).get? done.length).getD false = false
    have h1 := get?_append_skip (List.replicate done.length true)
      (List.replicate [x].length false) 0
    rw [List.length_replicate, Nat.add_zero] at h1
    rw [h1]
    rfl
  have hslotsL : (List.map some done ++ List.replicate [x].length none).set
      done.length (some x) = List.map some (done ++ [x]) := by
    have h4 := set_append_skip (List.map some done) (List.replicate [x].length none) 0 (some x)
    rw [List.length_map, Nat.add_zero] at h4
    rw [h4]
    show List.map some done ++ [some x] = _
    rw [List.map_append]
    rfl
  have hcalledL : (List.replicate done.length true ++ List.replicate [x].length false).set
      done.length true = List.replicate (done ++ [x]).length true := by
    have h4 := set_append_skip (List.replicate done.length true)
      (List.replicate [x].length false) 0 true
    rw [List.length_replicate, Nat.add_zero] at h4
    rw [h4]
    show List.replicate done.length true ++ [true] = _
    rw [show (done ++ [x]).length = done.length + 1 from by simp, List.replicate_succ']
  have hH : runHandler
      { promises := freshPromise :: (allDoneP done ++ allWrapped [x]),
        pairs := { alreadyResolved := false, target := 0 } ::
          (allDonePairs 0 done.length ++ allPairs done.length [x].length),
        allRecs :=
          [{ prId := 0,
             slots := done.map some ++ List.replicate [x].length none,
             called := List.replicate done.length true ++ List.replicate [x].length false,
             remaining := (([x].length : Nat) : Int) }],
        queue := [],
        log := [] }
      (.hAllElement 0 done.length) x =
    ({ promises := fulfilledRec (renderSlots
         ((done.map some ++ List.replicate [x].length none).set done.length (some x))) ::
         (allDoneP done ++ allWrapped [x]),
       pairs := deadPair 0 ::
         (allDonePairs 0 done.length ++ allPairs done.length [x].length),
       allRecs :=
         [{ prId := 0,
            slots := (done.map some ++ List.replicate [x].length none).set
              done.length (some x),
            called := (List.replicate done.length true ++
              List.replicate [x].length false).set done.length true,
            remaining := (([x].length : Nat) : Int) - 1 }],
       queue := [],
       log := [] }, .ok .undef) := by
    show (if (List.replicate done.length true ++
        List.replicate [x].length false).getD done.length false = true
      then _ else _) = _
    rw [hcall]
    simp only [Bool.false_eq_true, if_false]
    rw [if_pos (show ((([x].length : Nat) : Int)) - 1 = 0 by norm_num)]
    have h5 := pairResolve_simple_spec
      { promises := freshPromise :: (allDoneP done ++ allWrapped [x]),
        pairs := { alreadyResolved := false, target := 0 } ::
          (allDonePairs 0 done.length ++ allPairs done.length [x].length),
        allRecs :=
          [{ prId := 0,
             slots := (done.map some ++ List.replicate [x].length none).set
               done.length (some x),
             called := (List.replicate done.length true ++
               List.replicate [x].length false).set done.length true,
             remaining := (([x].length : Nat) : Int) - 1 }],
        queue := [],
        log := [] }
      0 { alreadyResolved := false, target := 0 } freshPromise
      (renderSlots ((done.map some ++ List.replicate [x].length none).set
        done.length (some x))) rfl rfl rfl rfl rfl
    exact congrArg (fun z => ((z, Except.ok Value.undef) : St × Except Value Value)) h5
  rw [hH]
  show pairResolve
    { promises := fulfilledRec (renderSlots
        ((List.map some done ++ List.replicate [x].length none).set done.length (some x))) ::
        (allDoneP done ++ allWrapped [x]),
      pairs := deadPair 0 ::
        (allDonePairs 0 done.length ++ allPairs done.length [x].length),
      allRecs :=
        [{ prId := 0,
           slots := (List.map some done ++ List.replicate [x].length none).set
             done.length (some x),
           called := (List.replicate done.length true ++
             List.replicate [x].length false).set done.length true,
           remaining := (([x].length : Nat) : Int) - 1 }],
      queue := [],
      log := [] }
    (2 * done.length + 2) .undef = allFinal (done ++ [x])
  have hprL : ((deadPair 0 : PairRec) ::
      (allDonePairs 0 done.length ++ allPairs done.length [x].length)).get?
      (2 * done.length + 2) =
      some { alreadyResolved := false, target := 2 * done.length + 2 } := by
    show (allDonePairs 0 done.length ++ allPairs done.length [x].length).get?
      (2 * done.length + 1) = _
    have h1 := get?_append_skip (allDonePairs 0 done.length)
      (allPairs done.length [x].length) 1
    rw [allDonePairs_length] at h1
    rw [h1]
    rfl
  have hpL : (fulfilledRec (renderSlots
      ((List.map some done ++ List.replicate [x].length none).set done.length (some x))) ::
      (allDoneP done ++ allWrapped [x])).get? (2 * done.length + 2) =
      some freshPromise := by
    show (allDoneP done ++ allWrapped [x]).get? (2 * done.length + 1) = _
    have h1 := get?_append_skip (allDoneP done) (allWrapped [x]) 1
    rw [allDoneP_length] at h1
    rw [h1]
    rfl
  have h6 := pairResolve_simple_spec
    { promises := fulfilledRec (renderSlots
        ((List.map some done ++ List.replicate [x].length none).set done.length (some x))) ::
        (allDoneP done ++ allWrapped [x]),
      pairs := deadPair 0 ::
        (allDonePairs 0 done.length ++ allPairs done.length [x].length),
      allRecs :=
        [{ prId := 0,
           slots := (List.map some done ++ List.replicate [x].length none).set
             done.length (some x),
           called := (List.replicate done.length true ++
             List.replicate [x].length false).set done.length true,
           remaining := (([x].length : Nat) : Int) - 1 }],
      queue := [],
      log := [] }
    (2 * done.length + 2) { alreadyResolved := false, target := 2 * done.length + 2 }
    freshPromise .undef hprL rfl hpL rfl rfl
  rw [h6]
  have hP6 : (fulfilledRec (renderSlots
      ((List.map some done ++ List.replicate [x].length none).set done.length (some x))) ::
      (allDoneP done ++ allWrapped [x])).set (2 * done.length + 2) (fulfilledRec .undef) =
      fulfilledRec (.arr (done ++ [x])) :: allDoneP (done ++ [x]) := by
    rw [set_cons_two]
    have h4 := set_append_skip (allDoneP done) (allWrapped [x]) 1 (fulfilledRec .undef)
    rw [allDoneP_length] at h4
    rw [h4]
    rw [hslotsL, renderSlots_some, allDoneP_snoc]
    show fulfilledRec (.arr (done ++ [x])) ::
      (allDoneP done ++ (fulfilledRec x :: fulfilledRec .undef :: [])) = _
    simp [List.append_assoc]
  have hQ6 : ((deadPair 0 : PairRec) ::
      (allDonePairs 0 done.length ++ allPairs done.length [x].length)).set
      (2 * done.length + 2) (deadPair (2 * done.length + 2)) =
      { alreadyResolved := true, target := 0 } ::
        allDonePairs 0 (done ++ [x]).length := by
    rw [set_cons_two]
    have h4 := set_append_skip (allDonePairs 0 done.length)
      (allPairs done.length [x].length) 1 (deadPair (2 * done.length + 2))
    rw [allDonePairs_length] at h4
    rw [h4]
    rw [show (done ++ [x]).length = done.length + 1 from by simp]
    rw [allDonePairs_snoc]
    show (deadPair 0 : PairRec) ::
      (allDonePairs 0 done.length ++
        ({ alreadyResolved := true, target := 2 * done.length + 1 } ::
         deadPair (2 * done.length + 2) :: [])) = _
    simp [List.append_assoc, deadPair]
  simp only [allFinal, St.mk.injEq]
  refine ⟨hP6, hQ6, ?_, rfl, trivial⟩
  rw [hslotsL, hcalledL]
  norm_num

theorem drain_all (rest : List Value) : ∀ done, rest ≠ [] →
    stepN rest.length (drainSt done rest) = some (allFinal (done ++ rest)) := by
  induction rest with
  | nil => intro done h; cases h rfl
  | cons x r ih =>
    intro done h
    cases r with
    | nil =>
      show (runQueueEntry (drainSt done [x])).bind (stepN 0) = _
      rw [drain_step_last done x]
      rfl
    | cons y r2 =>
      show (runQueueEntry (drainSt done (x :: y :: r2))).bind (stepN (y :: r2).length) = _
      rw [drain_step_mid done x y r2]
      show stepN (y :: r2).length (drainSt (done ++ [x]) (y :: r2)) = _
      rw [ih (done ++ [x]) (by simp)]
      rw [List.append_assoc]
      rfl

theorem runQueue_of_stepN (n : Nat) : ∀ (s s2 : St), stepN n s = some s2 →
    runQueueEntry s2 = none → runQueue n s = some s2 := by
  induction n with
  | zero =>
    intro s s2 h hq
    cases h
    unfold runQueue
    rw [hq]
  | succ n ih =>
    intro s s2 h hq
    cases hs : runQueueEntry s with
    | none =>
      rw [show stepN (n + 1) s = (runQueueEntry s).bind (stepN n) from rfl, hs] at h
      cases h
    | some s3 =>
      rw [show stepN (n + 1) s = (runQueueEntry s).bind (stepN n) from rfl, hs] at h
      unfold runQueue
      rw [hs]
      exact ih s3 s2 h hq

/-! ## Claim theorems -/

/-- C3: for any starting state, constructing a promise with an executor
that calls `resolve` on the promise itself leaves the new promise
`Rejected` with the type error `self resolution`: never fulfilled, never
still pending. -/
theorem self_resolution_rejects (s : St) :
    statusOf (mkPromise s [.actSelfResolve]).1 (mkPromise s [.actSelfResolve]).2 =
      some (.rejected, .typeError "self resolution") := by
  have h1a : (mkPromise s [.actSelfResolve]).1 =
      pairResolve
        { s with
          promises := s.promises ++ [freshPromise],
          pairs := s.pairs ++ [{ alreadyResolved := false, target := s.promises.length }] }
        s.pairs.length (.promiseV s.promises.length) := rfl
  have h1b : (mkPromise s [.actSelfResolve]).2 = s.promises.length := rfl
  rw [h1a, h1b]
  have h2 := pairResolve_self_spec
    { s with
      promises := s.promises ++ [freshPromise],
      pairs := s.pairs ++ [{ alreadyResolved := false, target := s.promises.length }] }
    s.pairs.length { alreadyResolved := false, target := s.promises.length } freshPromise
    (get?_concat _ _) rfl (get?_concat _ _) rfl
  rw [h2]
  unfold statusOf
  rw [set_concat, get?_concat]
  rfl

/-- C4 counterexample: an executor that resolves with `1` and then throws
leaves the promise `Fulfilled` with `1`; the caught error is not converted
into a rejection of the promise, because the resolution pair is already
neutralized. -/
theorem executor_throw_after_resolve_not_rejected :
    statusOf (mkPromise st0 [.actResolve (.num 1), .actThrow (.errV 0)]).1
      (mkPromise st0 [.actResolve (.num 1), .actThrow (.errV 0)]).2 =
      some (.fulfilled, .num 1) ∧
    (statusOf (mkPromise st0 [.actResolve (.num 1), .actThrow (.errV 0)]).1
      (mkPromise st0 [.actResolve (.num 1), .actThrow (.errV 0)]).2).map Prod.fst ≠
      some PromiseState.rejected := by
  refine ⟨rfl, ?_⟩
  intro h
  rw [show statusOf (mkPromise st0 [.actResolve (.num 1), .actThrow (.errV 0)]).1
      (mkPromise st0 [.actResolve (.num 1), .actThrow (.errV 0)]).2 =
      some (.fulfilled, .num 1) from rfl] at h
  simp at h

/-- C4 (amended): an error thrown by the executor before any call to its
resolve or reject function is caught by the constructor and rejects the
new promise with the thrown value; the throw never escapes the
constructor (the construction function is total and later statements of
the executor are simply skipped). -/
theorem executor_throw_rejects (s : St) (e : Value) (pre rest : List ExAction)
    (hpre : ∀ a ∈ pre, a = ExAction.actNop) :
    statusOf (mkPromise s (pre ++ .actThrow e :: rest)).1
      (mkPromise s (pre ++ .actThrow e :: rest)).2 = some (.rejected, e) := by
  have h0 : mkPromise s (pre ++ .actThrow e :: rest) = mkPromise s (.actThrow e :: rest) :=
    mkPromise_congr s _ _ (fun s2 prId pid => runExecutor_nops s2 prId pid pre _ hpre)
  rw [h0]
  have h1a : (mkPromise s (.actThrow e :: rest)).1 =
      pairReject
        { s with
          promises := s.promises ++ [freshPromise],
          pairs := s.pairs ++ [{ alreadyResolved := false, target := s.promises.length }] }
        s.pairs.length e := rfl
  have h1b : (mkPromise s (.actThrow e :: rest)).2 = s.promises.length := rfl
  rw [h1a, h1b]
  have h2 := pairReject_spec
    { s with
      promises := s.promises ++ [freshPromise],
      pairs := s.pairs ++ [{ alreadyResolved := false, target := s.promises.length }] }
    s.pairs.length { alreadyResolved := false, target := s.promises.length } freshPromise e
    (get?_concat _ _) rfl (get?_concat _ _) rfl
  rw [h2]
  unfold statusOf
  rw [set_concat, get?_concat]
  rfl

/-- C4 (amended) witness at a concrete executor. -/
theorem executor_throw_rejects_witness :
    statusOf (mkPromise st0 ([.actNop] ++ .actThrow (.errV 3) :: [.actNop])).1
      (mkPromise st0 ([.actNop] ++ .actThrow (.errV 3) :: [.actNop])).2 =
      some (.rejected, .errV 3) :=
  executor_throw_rejects st0 (.errV 3) [.actNop] [.actNop]
    (fun a ha => by simpa using ha)

/-- C1: once a promise has left the Pending state, its state and result
never change again: any later resolve or reject call through any
resolution pair (including fresh pairs created during a later thenable
assimilation) leaves them untouched, as does running any queue entry or
any full drain; in particular a promise never moves between Fulfilled and
Rejected or back to Pending. -/
theorem settled_state_immutable (s : St) (pid : Nat) (st : PromiseState) (v : Value)
    (h : statusOf s pid = some (st, v)) (hst : st ≠ .pending) :
    (∀ (prId : Nat) (x : Value), statusOf (pairResolve s prId x) pid = some (st, v)) ∧
    (∀ (prId : Nat) (e : Value), statusOf (pairReject s prId e) pid = some (st, v)) ∧
    (∀ s2, runQueueEntry s = some s2 → statusOf s2 pid = some (st, v)) ∧
    (∀ fuel s2, runQueue fuel s = some s2 → statusOf s2 pid = some (st, v)) :=
  ⟨fun prId x => pres_pairResolve s prId x pid st v h hst,
   fun prId e => pres_pairReject s prId e pid st v h hst,
   fun s2 h2 => pres_runQueueEntry s s2 h2 pid st v h hst,
   fun fuel s2 h2 => pres_runQueue fuel s s2 h2 pid st v h hst⟩

/-- C1 witness: a concrete fulfilled promise survives a later resolve
call through a fresh resolution pair unchanged. -/
theorem settled_state_immutable_witness :
    statusOf (pairResolve (mkPromise st0 [.actResolve (.num 5)]).1 0 (.num 9)) 0 =
      some (.fulfilled, .num 5) :=
  (settled_state_immutable (mkPromise st0 [.actResolve (.num 5)]).1 0 .fulfilled (.num 5)
    rfl (by decide)).1 0 (.num 9)

/-- C2: the three reactions registered by `then` calls in order 1, 2, 3
on a pending promise run in exactly that order once the promise is
settled and the queue drained; the queue is strict FIFO (`enqueueJob`
appends at the tail, `dequeueJob` removes the head) and settlement
enqueues the captured reactions in registration order (for every pending
promise and reaction list). -/
theorem fifo_reaction_order (s : St) (j : Job)
    (pid : Nat) (p : PromiseRec) (val : Value)
    (hp : s.promises.get? pid = some p) (hpend : p.state = .pending) :
    ((runQueue 9 (fifoScenario 1 2 3)).map St.log = some [1, 2, 3]) ∧
    ((enqueueJob s j).queue = s.queue ++ [j]) ∧
    (dequeueJob { s with queue := j :: s.queue } = some (j, { s with queue := s.queue })) ∧
    ((doFulfill s pid val).queue = s.queue ++ p.fulfillReactions.map (mkReactionJob val)) := by
  refine ⟨rfl, rfl, rfl, ?_⟩
  rw [doFulfill_spec s pid p val hp hpend]

/-- C2 witness at a concrete pending promise. -/
theorem fifo_reaction_order_witness :
    (runQueue 9 (fifoScenario 1 2 3)).map St.log = some [1, 2, 3] :=
  (fifo_reaction_order (mkPromise st0 []).1 (.reaction .identity 0 .undef) 0
    freshPromise .undef rfl rfl).1

/-- C5: resolving a fresh promise with a chain of `n ≥ 1` nested thenables
does not settle it synchronously: right after the resolve call the
promise is still pending with exactly one assimilation job queued; after
exactly `n` queue round-trips (one per thenable layer) it is fulfilled
with the base value, and after any `k < n` round-trips it is still
pending — a chain of `n` layers costs exactly `n` jobs to unwrap, not
one. -/
theorem thenable_assimilation_cost (n : Nat) (b : Value) (hb : isSimple b = true)
    (hn : 1 ≤ n) :
    (statusOf (chainStart b n) 0 = some (.pending, .undef) ∧
      (chainStart b n).queue = [.assimilation (nestThen n b) 1]) ∧
    (stepN n (chainStart b n) = some (chainDone (n + 1) b) ∧
      statusOf (chainDone (n + 1) b) 0 = some (.fulfilled, b)) ∧
    (∀ k, k < n → stepN k (chainStart b n) = some (chainSt k b (n - k)) ∧
      statusOf (chainSt k b (n - k)) 0 = some (.pending, .undef)) := by
  obtain ⟨m, rfl⟩ : ∃ m, n = m + 1 := ⟨n - 1, by omega⟩
  rw [chainStart_eq]
  refine ⟨⟨rfl, rfl⟩, ⟨?_, rfl⟩, ?_⟩
  · have h2 := chain_drain m 0 b hb
    rw [show 0 + m + 2 = m + 1 + 1 from by omega] at h2
    exact h2
  · intro k hk
    refine ⟨?_, rfl⟩
    have h3 := chain_partial k 0 (m + 1) b hk
    rwa [show 0 + k = k from by omega] at h3

/-- C5 witness at a two-layer chain over the number 7. -/
theorem thenable_assimilation_cost_witness :
    stepN 2 (chainStart (.num 7) 2) = some (chainDone 3 (.num 7)) ∧
    statusOf (chainDone 3 (.num 7)) 0 = some (.fulfilled, .num 7) :=
  (thenable_assimilation_cost 2 (.num 7) rfl (by decide)).2.1

/-- C6: whenever the drain loop `Promise.runQueue` terminates normally,
the job queue is empty and no further queue entry can run, so jobs
enqueued by jobs run during the drain (here: the second reaction of a
two-link chain, queued only while draining) have also been run within the
same drain call. -/
theorem drain_exhaustive (fuel : Nat) (s s2 : St) (h : runQueue fuel s = some s2) :
    s2.queue = [] ∧ runQueueEntry s2 = none ∧
    chainedScenario.queue.length = 1 ∧
    (runQueue 9 chainedScenario).map St.log = some [1, 2] := by
  have h2 := runQueue_drained fuel s s2 h
  exact ⟨runQueueEntry_none s2 h2, h2, rfl, rfl⟩

/-- C6 witness: the concrete two-link chain drains to an empty queue. -/
theorem drain_exhaustive_witness :
    ((runQueue 9 chainedScenario).getD st0).queue = [] := by
  have h : runQueue 9 chainedScenario = some ((runQueue 9 chainedScenario).getD st0) := rfl
  exact (drain_exhaustive 9 chainedScenario _ h).1

/-- C7: `Promise.all` on the empty list returns, synchronously, a promise
already Fulfilled with the empty array; nothing is enqueued, so no drain
is needed: the `remaining` counter seeded at 1 reaches zero at the
balancing decrement straight after the empty registration loop and the
aggregate is resolved on the spot. -/
theorem all_empty_fulfills_immediately (s : St) :
    statusOf (all s []).1 (all s []).2 = some (.fulfilled, .arr []) ∧
    (all s []).1.queue = s.queue := by
  unfold all
  simp only [newCapability, createResolutionFunctions, allLoop, bumpRemaining]
  rw [get?_concat]
  simp only [setAllRec]
  rw [set_concat, get?_concat]
  norm_num
  have h2 := pairResolve_simple_spec
    { s with
      promises := s.promises ++ [freshPromise],
      pairs := s.pairs ++ [{ alreadyResolved := false, target := s.promises.length }],
      allRecs :=
        s.allRecs ++ [{ prId := s.pairs.length, slots := [], called := [], remaining := 0 }] }
    s.pairs.length { alreadyResolved := false, target := s.promises.length } freshPromise
    (renderSlots []) (get?_concat _ _) rfl (get?_concat _ _) rfl rfl
  rw [h2]
  constructor
  · show (((s.promises ++ [freshPromise]).set s.promises.length
      (fulfilledRec (renderSlots []))).get? s.promises.length).map
      (fun p => (p.state, p.value)) = _
    rw [set_concat, get?_concat]
    rfl
  · show s.queue ++ freshPromise.fulfillReactions.map (mkReactionJob (renderSlots [])) = s.queue
    simp [freshPromise]

/-- C9: `Promise.race([])` returns a promise that is pending with nothing
enqueued (from any starting state), and from the initial state draining
any amount of fuel returns the state unchanged with the promise still
pending: the registration loop ran zero times, so nothing in the state
references the resolution pair of the race promise. -/
theorem race_empty_never_settles (s : St) :
    (statusOf (race s []).1 (race s []).2 = some (.pending, .undef)) ∧
    ((race s []).1.queue = s.queue) ∧
    (∀ fuel, runQueue fuel (race st0 []).1 = some (race st0 []).1) ∧
    (∀ fuel s2, runQueue fuel (race st0 []).1 = some s2 →
      statusOf s2 (race st0 []).2 = some (.pending, .undef)) := by
  have hdr : ∀ fuel, runQueue fuel (race st0 []).1 = some (race st0 []).1 := by
    intro fuel
    cases fuel <;> rfl
  refine ⟨?_, rfl, hdr, ?_⟩
  · have h1a : (race s []).1 =
        { s with
          promises := s.promises ++ [freshPromise],
          pairs := s.pairs ++ [{ alreadyResolved := false, target := s.promises.length }] } := rfl
    have h1b : (race s []).2 = s.promises.length := rfl
    rw [h1a, h1b]
    unfold statusOf
    rw [get?_concat]
    rfl
  · intro fuel s2 h
    rw [hdr fuel] at h
    cases h
    rfl

/-- C10: the reject path stores the error value verbatim, with no thenable
assimilation: on a live pair with a pending target, `reject(e)` settles
the target to `Rejected` with exactly `e` (for every value `e`, promises
and thenables included) and appends only the captured reject reaction
jobs to the queue, never an assimilation job; likewise `Promise.reject(e)`
yields a promise rejected with `e` itself. -/
theorem reject_never_assimilates (s : St) (prId : Nat) (pr : PairRec) (p : PromiseRec)
    (e : Value)
    (hpr : s.pairs.get? prId = some pr) (hlive : pr.alreadyResolved = false)
    (hp : s.promises.get? pr.target = some p) (hpend : p.state = .pending) :
    statusOf (pairReject s prId e) pr.target = some (.rejected, e) ∧
    (pairReject s prId e).queue = s.queue ++ p.rejectReactions.map (mkReactionJob e) ∧
    (∀ (s2 : St) (e2 : Value),
      statusOf (promiseReject s2 e2).1 (promiseReject s2 e2).2 = some (.rejected, e2)) := by
  refine ⟨?_, ?_, ?_⟩
  · rw [pairReject_spec s prId pr p e hpr hlive hp hpend]
    unfold statusOf
    simp only []
    rw [get?_set_self _ _ p _ hp]
    rfl
  · rw [pairReject_spec s prId pr p e hpr hlive hp hpend]
  · intro s2 e2
    have h1a : (promiseReject s2 e2).1 =
        pairReject
          { s2 with
            promises := s2.promises ++ [freshPromise],
            pairs := s2.pairs ++ [{ alreadyResolved := false, target := s2.promises.length }] }
          s2.pairs.length e2 := rfl
    have h1b : (promiseReject s2 e2).2 = s2.promises.length := rfl
    rw [h1a, h1b]
    have h2 := pairReject_spec
      { s2 with
        promises := s2.promises ++ [freshPromise],
        pairs := s2.pairs ++ [{ alreadyResolved := false, target := s2.promises.length }] }
      s2.pairs.length { alreadyResolved := false, target := s2.promises.length } freshPromise e2
      (get?_concat _ _) rfl (get?_concat _ _) rfl
    rw [h2]
    unfold statusOf
    rw [set_concat, get?_concat]
    rfl

/-- C10 witness: rejecting a fresh pending promise with a thenable stores
the thenable itself. -/
theorem reject_never_assimilates_witness :
    statusOf (pairReject (mkPromise st0 []).1 0 (.thenObj (.num 1))) 0 =
      some (.rejected, .thenObj (.num 1)) :=
  (reject_never_assimilates (mkPromise st0 []).1 0 (livePair 0) freshPromise
    (.thenObj (.num 1)) rfl rfl rfl rfl).1

/-- C8: for every input list whose elements all fulfill (simple values, which
Promise.resolve wraps as already-fulfilled promises), Promise.all returns a
promise that, after the queue is drained, is Fulfilled with the sequence of
the inputs' results placed at the index of the corresponding input, and this
holds regardless of the order in which the individual inputs settle: the
out-of-order scenario (second element settles before the first) still yields
the results in input order. -/
theorem all_simple_inputs_fulfill_in_order (vs : List Value)
    (h : ∀ v ∈ vs, isSimple v = true) :
    (runQueue vs.length (all st0 vs).1 = some (allFinal vs) ∧
      statusOf (allFinal vs) (all st0 vs).2 = some (.fulfilled, .arr vs)) ∧
    (allOutOfOrderScenario.map (fun s2 => statusOf s2 1) =
      some (some (.fulfilled, .arr [.num 1, .num 2]))) := by
  refine ⟨?_, rfl⟩
  cases vs with
  | nil => exact ⟨rfl, rfl⟩
  | cons w ws =>
    rw [all_eq_drainSt (w :: ws) h (by simp)]
    constructor
    · refine runQueue_of_stepN (w :: ws).length _ _ ?_ (runQueueEntry_nil_eq _ rfl)
      have h2 := drain_all (w :: ws) [] (by simp)
      rw [show ([] : List Value) ++ (w :: ws) = w :: ws from rfl] at h2
      exact h2
    · rfl

theorem all_simple_inputs_fulfill_in_order_witness :
    (∀ v ∈ [Value.num 1, Value.num 2, Value.num 3], isSimple v = true) ∧
    (runQueue 3 (all st0 [Value.num 1, Value.num 2, Value.num 3]).1 =
        some (allFinal [Value.num 1, Value.num 2, Value.num 3]) ∧
      statusOf (allFinal [Value.num 1, Value.num 2, Value.num 3])
          (all st0 [Value.num 1, Value.num 2, Value.num 3]).2 =
        some (.fulfilled, .arr [Value.num 1, Value.num 2, Value.num 3])) :=
  ⟨by decide,
    (all_simple_inputs_fulfill_in_order [Value.num 1, Value.num 2, Value.num 3]
      (by decide)).1⟩

end PromisePolyfill
